import Mathlib

/-
Verification of the scrape-context core of pholcus (`app/spider/context.go`).

The Go source is shallowly embedded: pure fragments become Lean functions,
stateful methods become explicit state-passing functions on a `Context`
structure, Go byte strings become Lean `String`s, Go `interface` values
become the dynamic type `Val`, and Go nil-pointer dereference / `panic`
paths become `Option.none` results.  Collaborator packages that are not part
of the source file (the `Spider` rule-table methods, `request.Request`
helpers, the `data` cell constructors, the mime/charset/goquery libraries)
are modelled from the spec or kept abstract, as marked on each definition.
-/

namespace Pholcus

/-- Dynamic values: shallow embedding of the Go `interface` values that flow
through `context.go` (strings, 64-bit integers, booleans, string slices,
string-keyed maps, and otherwise-unknown values, the latter represented by
an uninterpreted tag). -/
inductive Val where
  | str (s : String)
  | int (n : Int)
  | bool (b : Bool)
  | strs (l : List String)
  | vmap (m : List (String × Val))
  | any (n : Nat)

/-- Association-list lookup (first binding wins), modelling Go map reads. -/
def alookup {α : Type} : List (String × α) → String → Option α
  | [], _ => none
  | (k, v) :: rest, key => if k = key then some v else alookup rest key

/-- Replace the first binding of `key` (in-place pointer write on the found
entry in Go); no-op when the key is absent. -/
def aset {α : Type} : List (String × α) → String → α → List (String × α)
  | [], _, _ => []
  | (k, v) :: rest, key, w =>
      if k = key then (k, w) :: rest else (k, v) :: aset rest key w

/-- Index of the first occurrence of `k`, if any. -/
def idxOf? : List String → String → Option Nat
  | [], _ => none
  | x :: xs, k => if x = k then some 0 else (idxOf? xs k).map (· + 1)

/-- Go map assignment `m[k] = v` on an association list: overwrite the first
binding of `k`, else append a new binding. -/
def mapSet : List (String × Val) → String → Val → List (String × Val)
  | [], k, v => [(k, v)]
  | (k', v') :: rest, k, v =>
      if k' = k then (k', v) :: rest else (k', v') :: mapSet rest k v

/-- The keys of a Go map, in the model's (association-list) iteration order.
Go map iteration order is unspecified; the claims proved below do not depend
on it. -/
def keysOf {α : Type} (m : List (String × α)) : List String := m.map Prod.fst

/-- Go `http.Header`: a string-keyed multimap.  Key canonicalisation is not
modelled; every key used by `context.go` is already in canonical form. -/
abbrev Header := List (String × List String)

/-- `http.Header.Get`: first value of the key, `""` when absent. -/
def headerGet (h : Header) (k : String) : String :=
  match alookup h k with
  | some (v :: _) => v
  | _ => ""

/-- `http.Header.Set`: replace the key's values with the single value. -/
def headerSet (h : Header) (k v : String) : Header :=
  match alookup h k with
  | some _ => aset h k [v]
  | none => h ++ [(k, [v])]

/-- `http.Header.Add`: append one value to the key's value list. -/
def headerAdd (h : Header) (k v : String) : Header :=
  match alookup h k with
  | some vs => aset h k (vs ++ [v])
  | none => h ++ [(k, [v])]

/-- Go `strings.Split(s, sep)[0]` for a one-character separator: the prefix
of the character list before the first occurrence of `sep`. -/
def takeUntil (c : Char) : List Char → List Char
  | [] => []
  | x :: xs => if x = c then [] else x :: takeUntil c xs

/-- Go `strings.Split(s, sep)[0]` (only one-character separators are used by
`context.go`: `"?"` and `"."`). -/
def splitHead (s : String) (sep : Char) : String := ⟨takeUntil sep s.data⟩

/-- Go `path.Split`: split after the final slash into (directory, file). -/
def pathSplit (p : String) : String × String :=
  let file : List Char := (takeUntil '/' p.data.reverse).reverse
  (⟨p.data.take (p.data.length - file.length)⟩, ⟨file⟩)

/-- Helper for `pathExt`: scan the reversed character list, collecting up to
and including the first `'.'`; fail when a `'/'` (or the start) is reached
first. -/
def extRevAux : List Char → Option (List Char)
  | [] => none
  | x :: xs =>
      if x = '/' then none
      else if x = '.' then some [x]
      else (extRevAux xs).map (fun r => x :: r)

/-- Go `path.Ext`: the suffix beginning at the final dot in the final
slash-separated element; empty when there is no dot. -/
def pathExt (s : String) : String :=
  match extRevAux s.data.reverse with
  | some r => ⟨r.reverse⟩
  | none => ""

/-- Go `strings.TrimSpace`. -/
def goTrim (s : String) : String :=
  ⟨((s.data.dropWhile Char.isWhitespace).reverse.dropWhile Char.isWhitespace).reverse⟩

/-- Go `strings.ToLower` (charset labels are ASCII). -/
def goLower (s : String) : String := ⟨s.data.map Char.toLower⟩

/-- `request.Request` (package `app/downloader/request`, declared outside
src/): the fields read or written by `context.go`.  Durations and integer
fields are modelled as `Int`. -/
structure Request where
  Url : String := ""
  Rule : String := ""
  Spider : String := ""
  Method : String := ""
  Header : Header := []
  EnableCookie : Bool := false
  PostData : String := ""
  Reloadable : Bool := false
  DialTimeout : Int := 0
  ConnTimeout : Int := 0
  RetryPause : Int := 0
  TryTimes : Int := 0
  RedirectTimes : Int := 0
  Priority : Int := 0
  DownloaderID : Int := 0
  Temp : List (String × Val) := []

/-- `Request.GetRuleName`. -/
def Request.GetRuleName (r : Request) : String := r.Rule

/-- `Request.SetRuleName`. -/
def Request.SetRuleName (r : Request) (name : String) : Request :=
  { r with Rule := name }

/-- `Request.GetReferer`: the `Referer` header. -/
def Request.GetReferer (r : Request) : String := headerGet r.Header "Referer"

/-- `Request.SetReferer`. -/
def Request.SetReferer (r : Request) (ref : String) : Request :=
  { r with Header := headerSet r.Header "Referer" ref }

/-- `Request.SetSpiderName`. -/
def Request.SetSpiderName (r : Request) (name : String) : Request :=
  { r with Spider := name }

/-- `Request.SetEnableCookie`. -/
def Request.SetEnableCookie (r : Request) (b : Bool) : Request :=
  { r with EnableCookie := b }

/-- Modelled from the spec: `request.Request.Prepare` is not under src/.
Per spec §4.6 it validates/normalizes required fields (url, target rule
name) and returns an error on validation failure; spec §8's seed scenario
shows an empty rule name must pass, so validation is modelled as failing
exactly when the url is empty, and normalization is modelled by defaulting
the method to GET (spec §4.6 "apply defaults"). -/
def Request.Prepare (r : Request) : Except String Request :=
  if r.Url = "" then Except.error "request url is empty"
  else Except.ok { r with Method := if r.Method = "" then "GET" else r.Method }

/-- `http.Response`, as consumed by `context.go`: status, response headers,
the headers of the (effective, post-redirect) request that produced it, and
the raw body.  The body is a single-read stream: `BodyClosed` records that
it has been consumed/closed, after which any further read errors (and the
Go code panics). -/
structure Response where
  StatusCode : Int := 200
  Header : Pholcus.Header := []
  ReqHeader : Pholcus.Header := []
  Body : String := ""
  BodyClosed : Bool := false

/-- The parsed document tree (goquery `Document`).  The html parser is an
external library and is kept abstract: a document is represented by the
exact text it was parsed from. -/
structure Dom where
  src : String

/-- `goquery.NewDocumentFromReader` on an in-memory string: the html parser
accepts any input, so parsing is total. -/
def parseDoc (s : String) : Dom := ⟨s⟩

/-- Modelled from the spec: `data.DataCell` and `data.GetDataCell` (package
`app/pipeline/collector/data`) are not under src/.  Per spec §3 a Record
carries the owning-rule name, a field-name to value mapping, source url,
referer and timestamp; `Data = none` models the Go nil map. -/
structure DataCell where
  RuleName : String
  Data : Option (List (String × Val))
  Url : String
  ParentUrl : String
  DownloadTime : String

/-- Modelled from the spec: constructor of `DataCell` (see `DataCell`). -/
def GetDataCell (ruleName : String) (data : Option (List (String × Val)))
    (url parentUrl downloadTime : String) : DataCell :=
  ⟨ruleName, data, url, parentUrl, downloadTime⟩

/-- Modelled from the spec: `data.FileCell` (owning-rule name, resolved
filename, raw bytes), spec §3. -/
structure FileCell where
  RuleName : String
  Name : String
  Bytes : String

/-- Modelled from the spec: constructor of `FileCell` (see `FileCell`). -/
def GetFileCell (ruleName name bytes : String) : FileCell :=
  ⟨ruleName, name, bytes⟩

/-- A rule, as consumed by `context.go`: its ordered field-name table.  The
`ParseFunc`/`AidFunc` capabilities are externally supplied code; their
invocation is modelled by the `Invoked` outcome of `Context.Parse`. -/
structure Rule where
  ItemFields : List String := []

/-- The part of `Spider` that `context.go` consumes: name, cookie policy,
default-field suppression flag, and the rule table (`RuleTree.Trunk`).  The
designated root handler (`RuleTree.Root`) is an externally supplied
capability, modelled by the `Invoked.root` outcome of `Context.Parse`. -/
structure Spider where
  Name : String := ""
  EnableCookie : Bool := false
  NotDefaultField : Bool := false
  Rules : List (String × Rule) := []

/-- Modelled from the spec: `Spider.GetRule` (file `spider.go`, not under
src/) — a mapping-keyed lookup against the owning unit's rule table; absence
yields not-found with no error raised (spec §4.2). -/
def Spider.GetRule (sp : Spider) (name : String) : Option Rule :=
  alookup sp.Rules name

/-- Modelled from the spec: `Spider.GetItemField` (not under src/) — by
index get the field name; per the doc comment of `Context.GetItemField`
(context.go lines 421-422), an absent index yields the empty string.  The
receiver is unused, as in the Go method, which only reads the rule. -/
def Spider.GetItemField (_ : Spider) (r : Rule) (index : Int) : String :=
  if index < 0 then "" else r.ItemFields.getD index.toNat ""

/-- Field-table upsert on one rule: an existing name is a no-op returning
its existing index; a new name is appended, its index being the append
position (spec §4.4; doc comment of `Context.UpsertItemField`, context.go
lines 300-302). -/
def Rule.upsertField (r : Rule) (field : String) : Rule × Nat :=
  match idxOf? r.ItemFields field with
  | some i => (r, i)
  | none => ({ ItemFields := r.ItemFields ++ [field] }, r.ItemFields.length)

/-- Modelled from the spec: `Spider.UpsertItemField` (not under src/).  The
Go method mutates the resolved rule through its pointer; the model updates
the rule's binding in the rule table by name (lookup and update both act on
the first binding, so the two views agree). -/
def Spider.UpsertItemField (sp : Spider) (ruleName field : String) :
    Spider × Nat :=
  match sp.GetRule ruleName with
  | none => (sp, 0)
  | some r =>
      let p := r.upsertField field
      ({ sp with Rules := aset sp.Rules ruleName p.1 }, p.2)

/-- The field table of the named rule (empty when the rule is absent);
observation helper for stating theorems. -/
def Spider.ruleFields (sp : Spider) (name : String) : List String :=
  match sp.GetRule name with
  | some r => r.ItemFields
  | none => []

/-- The fold `Context.Output` performs over the keys of a name-keyed item
(`for k := range item2 { self.spider.UpsertItemField(rule, k) }`). -/
def upsertAll (sp : Spider) (ruleName : String) (keys : List String) :
    Spider :=
  keys.foldl (fun s k => (s.UpsertItemField ruleName k).1) sp

/-- The keys of `keys` that are new relative to `fields`, in order and
deduplicated: the exact suffix `upsertAll` appends to the field table. -/
def newOf : List String → List String → List String
  | [], _ => []
  | k :: ks, fields =>
      if k ∈ fields then newOf ks fields else k :: newOf ks (fields ++ [k])

/-- A Go slice, reduced to what the claims observe: its backing capacity and
its elements.  `trunc` models `s[:0]` (length zero, capacity kept); `fresh`
models a new empty slice literal; `push` models `append` (capacity grows
when full — the runtime's exact growth policy is abstracted, only
preservation under truncation is claim-relevant). -/
structure Buf (α : Type) where
  cap : Nat := 0
  elems : List α := []

/-- Go `append(b, x)`. -/
def Buf.push {α : Type} (b : Buf α) (x : α) : Buf α :=
  ⟨max b.cap (b.elems.length + 1), b.elems ++ [x]⟩

/-- Go `b[:0]`: truncate in place, preserving capacity. -/
def Buf.trunc {α : Type} (b : Buf α) : Buf α := ⟨b.cap, []⟩

/-- Go `[]T{}`: a brand-new empty slice. -/
def Buf.fresh {α : Type} : Buf α := ⟨0, []⟩

/-- `Context` (context.go lines 21-31).  Pointer fields become `Option`s so
that the pool's reset path is expressible; the mutex is not a value field
(its effect is modelled by the event-interleaving semantics below). -/
structure Context where
  spider : Option Spider := none
  Request : Option Request := none
  Response : Option Response := none
  text : String := ""
  dom : Option Dom := none
  items : Buf DataCell := {}
  files : Buf FileCell := {}
  err : Option String := none

/-- `GetContext` (context.go lines 46-51): bind the spider and request onto
an instance obtained from the pool.  The pool hand-off itself is external
(`sync.Pool`); the recycled instance is passed explicitly. -/
def GetContext (ctx : Context) (sp : Spider) (req : Request) : Context :=
  { ctx with spider := some sp, Request := some req }

/-- `PutContext` (context.go lines 53-63): clear every field — the two
buffers are truncated in place (`ctx.items[:0]`), every pointer field is
detached, the text cache is emptied — and return the instance for reuse. -/
def PutContext (ctx : Context) : Context :=
  { spider := none
    Request := none
    Response := none
    text := ""
    dom := none
    items := ctx.items.trunc
    files := ctx.files.trunc
    err := none }

/-- Convenience constructor for a context bound to a spider and a request
(the shape produced by `GetContext`), used to state the theorems below. -/
def mkCtx (sp : Spider) (rq : Request) (rsp : Option Response) (txt : String)
    (dm : Option Dom) (it : Buf DataCell) (fl : Buf FileCell)
    (er : Option String) : Context :=
  { spider := some sp, Request := some rq, Response := rsp, text := txt,
    dom := dm, items := it, files := fl, err := er }

/-- `Context.getRule` (context.go lines 547-558): with no explicit name and
no bound response, resolution fails immediately (name `""`, not found);
otherwise the name defaults to the rule name recorded on the bound request,
and the name is looked up in the owning spider's rule table.  `none` (versus
`some`) models the Go nil-pointer crash on an unbound context. -/
def Context.getRule (c : Context) (ruleName : Option String) :
    Option (String × Option Rule) :=
  match ruleName with
  | none =>
      match c.Response with
      | none => some ("", none)
      | some _ =>
          match c.Request, c.spider with
          | some rq, some sp => some (rq.GetRuleName, sp.GetRule rq.GetRuleName)
          | _, _ => none
  | some name =>
      match c.spider with
      | some sp => some (name, sp.GetRule name)
      | none => none

/-- Diagnostic logged by `Context.Output` on resolution failure
(context.go line 188). -/
def outputRuleMiss (spiderName : String) : String :=
  "spider " ++ spiderName ++ ": Output called with a missing rule name"

/-- Diagnostic logged by `Context.CreatItem` on resolution failure
(context.go line 258). -/
def creatItemRuleMiss (spiderName : String) : String :=
  "spider " ++ spiderName ++ ": CreatItem called with a missing rule name"

/-- `Context.CreatItem` (context.go lines 255-268): translate an
index-keyed item into a name-keyed one through the resolved rule's existing
field table (`Spider.GetItemField`; no registration of new names).  On
resolution failure the error is logged and `nil` (here `none`) returned.
The second component is the log output. -/
def Context.CreatItem (c : Context) (item : List (Int × Val))
    (ruleName : Option String) :
    Option (Option (List (String × Val)) × List String) :=
  match c.getRule ruleName with
  | none => none
  | some (_, ruleFound) =>
      match c.spider with
      | none => none
      | some sp =>
          match ruleFound with
          | none => some (none, [creatItemRuleMiss sp.Name])
          | some rule =>
              some (some (item.foldl
                (fun acc kv => mapSet acc (sp.GetItemField rule kv.1) kv.2)
                []), [])

/-- The `item interface` argument of `Context.Output`: the three
supported dynamic shapes of the Go type switch (context.go lines 192-205)
plus any other dynamic value (which the switch leaves unhandled). -/
inductive OutputItem where
  | byIndex (m : List (Int × Val))
  | temp (m : List (String × Val))
  | byName (m : List (String × Val))
  | other (v : Val)

/-- `Context.Output` (context.go lines 185-213).  Resolution failure is
logged and the call is a no-op.  An index-keyed item is translated through
`CreatItem`; a name-keyed item (free-form map or `request.Temp`) first
upserts each of its keys into the resolved rule's field table; any other
shape leaves the field map `nil`.  The record is then appended to the
record buffer (under the mutex), with source url, referer and the supplied
timestamp `now` unless the spider suppresses default fields.  `time.Now()`
is external and is passed in as `now`. -/
def Context.Output (c : Context) (now : String) (item : OutputItem)
    (ruleName : Option String) : Option (Context × List String) :=
  match c.getRule ruleName with
  | none => none
  | some (name, ruleFound) =>
      match c.spider with
      | none => none
      | some sp =>
          match ruleFound with
          | none => some (c, [outputRuleMiss sp.Name])
          | some _ =>
              let upd : Option (List (String × Val)) × Spider :=
                match item with
                | .byIndex m =>
                    match c.CreatItem m (some name) with
                    | some (mi, _) => (mi, sp)
                    | none => (none, sp)
                | .temp m => (some m, upsertAll sp name (keysOf m))
                | .byName m => (some m, upsertAll sp name (keysOf m))
                | .other _ => (none, sp)
              let defFields : Option (String × String × String) :=
                if sp.NotDefaultField then some ("", "", "")
                else
                  match c.Request, c.Response with
                  | some rq, some resp =>
                      some (rq.Url, headerGet resp.ReqHeader "Referer", now)
                  | _, _ => none
              match defFields with
              | none => none
              | some (u, ref, tm) =>
                  some ({ c with
                            spider := some upd.2,
                            items := c.items.push
                              (GetDataCell name upd.1 u ref tm) },
                        [])

/-- The filename derivation of `Context.FileOutput` (context.go lines
226-245): split the url's last path segment, strip the query, take the
portion before the first dot as base name and the extension from the last
dot; an override's first-dot base name (prefixed with its directory part)
is preferred when nonempty, the override's extension is consulted only when
the url yielded none, and the extension defaults to `.html`. -/
def fileOutputBase (url : String) (name : Option String) : String :=
  let n := splitHead (pathSplit url).2 '?'
  let baseName := splitHead n '.'
  let ext := pathExt n
  let pb : String × String :=
    match name with
    | none => (baseName, ext)
    | some nm =>
        let pr := pathSplit nm
        let b2 := splitHead pr.2 '.'
        ((if b2 ≠ "" then pr.1 ++ b2 else baseName),
         (if ext = "" then pathExt pr.2 else ext))
  pb.1 ++ (if pb.2 = "" then ".html" else pb.2)

/-- `Context.FileOutput` (context.go lines 217-251): read the whole body
(panicking — `none` — when the stream was already consumed), close it,
derive the filename from the request url and the optional override, and
append the file cell (under the mutex). -/
def Context.FileOutput (c : Context) (name : Option String) :
    Option Context :=
  match c.Response, c.Request with
  | some resp, some rq =>
      if resp.BodyClosed then none
      else
        some { c with
          Response := some { resp with BodyClosed := true },
          files := c.files.push
            (GetFileCell rq.GetRuleName (fileOutputBase rq.Url name) resp.Body) }
  | _, _ => none

/-- `Context.PullItems` (context.go lines 443-449): atomically hand the
record buffer to the caller and install a brand-new empty slice. -/
def Context.PullItems (c : Context) : List DataCell × Context :=
  (c.items.elems, { c with items := Buf.fresh })

/-- `Context.PullFiles` (context.go lines 451-457): likewise for files. -/
def Context.PullFiles (c : Context) : List FileCell × Context :=
  (c.files.elems, { c with files := Buf.fresh })

/-- Outcome of a `Parse` dispatch: either the owning spider's designated
root handler, or the named rule's `ParseFunc` (both externally supplied
capabilities invoked with the context as argument). -/
inductive Invoked where
  | root
  | rule (name : String) (r : Rule)

/-- `Context.Parse` (context.go lines 329-343): resolve the rule; when a
response is bound, write the resolved name back onto the request; when no
rule is found invoke the root handler, otherwise the rule's `ParseFunc`.
The cooperative-cancellation check (`tryPanic`) concerns task shutdown and
is outside this model. -/
def Context.Parse (c : Context) (ruleName : Option String) :
    Option (Context × Invoked) :=
  match c.getRule ruleName with
  | none => none
  | some (name, ruleFound) =>
      let cont : Context → Option (Context × Invoked) := fun c2 =>
        match ruleFound with
        | none => some (c2, Invoked.root)
        | some r => some (c2, Invoked.rule name r)
      match c.Response with
      | some _ =>
          match c.Request with
          | none => none
          | some rq => cont { c with Request := some (rq.SetRuleName name) }
      | none => cont c

/-- `Context.AddQueue` (context.go lines 90-111): inherit the spider's name
and cookie policy, validate via `Prepare` (failure is logged and drops the
request, returning normally), auto-populate the referer from the context's
url when unset and a response is bound, then push to the spider's
submission queue.  The external queue is modelled by returning the pushed
request (`none` in the first component = nothing pushed); the second
component is the log output. -/
def Context.AddQueue (c : Context) (req : Pholcus.Request) :
    Option (Option Pholcus.Request × List String) :=
  match c.spider with
  | none => none
  | some sp =>
      match (((req.SetSpiderName sp.Name).SetEnableCookie
               sp.EnableCookie)).Prepare with
      | Except.error e => some (none, [e])
      | Except.ok req2 =>
          match c.Response with
          | some _ =>
              if req2.GetReferer = "" then
                match c.Request with
                | none => none
                | some rq => some (some (req2.SetReferer rq.Url), [])
              else some (some req2, [])
          | none => some (some req2, [])

/-- Go type assertion `v.(string)` on an optional dynamic value. -/
def vStr : Option Val → Option String
  | some (Val.str s) => some s
  | _ => none

/-- Go type assertion `v.(int64)`. -/
def vInt : Option Val → Option Int
  | some (Val.int n) => some n
  | _ => none

/-- Go type assertion `v.(bool)`. -/
def vBool : Option Val → Option Bool
  | some (Val.bool b) => some b
  | _ => none

/-- Go type assertion `v.(map[string]interface)` (dynamic map shape). -/
def vMap : Option Val → Option (List (String × Val))
  | some (Val.vmap m) => some m
  | _ => none

/-- The header construction of `JsAddQueue` (context.go lines 126-135):
start from an empty header and `Add` every value of every field whose
dynamic shape is a string slice, silently skipping the rest. -/
def jsHeader (v : Option Val) : Header :=
  match vMap v with
  | none => []
  | some hm =>
      hm.foldl
        (fun h kv =>
          match kv.2 with
          | Val.strs vs => vs.foldl (fun h2 v2 => headerAdd h2 kv.1 v2) h
          | _ => h)
        []

/-- `Context.JsAddQueue` (context.go lines 114-179): best-effort coercion
of a loosely-typed parameter bag into a request; a non-string `Url` drops
the request silently (before validation, with no diagnostic); every other
mismatched field is silently ignored (the zero value remains).  The tail
(validate, referer default, push) is the same as `AddQueue`. -/
def Context.JsAddQueue (c : Context) (jreq : List (String × Val)) :
    Option (Option Pholcus.Request × List String) :=
  match c.spider with
  | none => none
  | some sp =>
      match vStr (alookup jreq "Url") with
      | none => some (none, [])
      | some u =>
          let req : Pholcus.Request :=
            { Url := u
              Rule := (vStr (alookup jreq "Rule")).getD ""
              Method := (vStr (alookup jreq "Method")).getD ""
              Header := jsHeader (alookup jreq "Header")
              PostData := (vStr (alookup jreq "PostData")).getD ""
              Reloadable := (vBool (alookup jreq "Reloadable")).getD false
              DialTimeout := (vInt (alookup jreq "DialTimeout")).getD 0
              ConnTimeout := (vInt (alookup jreq "ConnTimeout")).getD 0
              RetryPause := (vInt (alookup jreq "RetryPause")).getD 0
              TryTimes := (vInt (alookup jreq "TryTimes")).getD 0
              RedirectTimes := (vInt (alookup jreq "RedirectTimes")).getD 0
              Priority := (vInt (alookup jreq "Priority")).getD 0
              DownloaderID := (vInt (alookup jreq "DownloaderID")).getD 0
              Temp := (vMap (alookup jreq "Temp")).getD [] }
          match (((req.SetSpiderName sp.Name).SetEnableCookie
                   sp.EnableCookie)).Prepare with
          | Except.error e => some (none, [e])
          | Except.ok req2 =>
              match c.Response with
              | some _ =>
                  if req2.GetReferer = "" then
                    match c.Request with
                    | none => none
                    | some rq => some (some (req2.SetReferer rq.Url), [])
                  else some (some req2, [])
              | none => some (some req2, [])

/-- `request.SURF_ID`: the primary (Surf) high-concurrency downloader has
id 0 (doc comment at context.go line 88). -/
def SURF_ID : Int := 0

/-- The external text libraries used by `initText`: `mime.ParseMediaType`
(media type and parameter map, `none` on parse error) and
`charset.NewReaderLabel` (`none` for an unknown label, otherwise a
transcoder into UTF-8 that itself may fail on a stream error).  `initText`
is proved correct for every such pair. -/
structure Ext where
  parseMediaType : String → Option (String × List (String × String))
  newReaderLabel : String → Option (String → Option String)

/-- The charset names that `initText` copies through unchanged
(context.go line 596), together with the absent-charset sentinel `""`. -/
def utf8Names : List String := ["", "utf8", "utf-8", "unicode-1-1-utf-8"]

/-- Charset extraction from one Content-Type value (context.go lines
579-583): parse the media type and take its `charset` parameter, trimmed
and lowercased; `""` when the header fails to parse or has no charset. -/
def charsetOf (ext : Ext) (contentType : String) : String :=
  match ext.parseMediaType contentType with
  | some (_, params) =>
      match alookup params "charset" with
      | some cs => goLower (goTrim cs)
      | none => ""
  | none => ""

/-- The declared page encoding (context.go lines 576-592): from the
response's Content-Type header first, else from the request's. -/
def pageEncodeOf (ext : Ext) (resp : Response) (rq : Request) : String :=
  let pe := charsetOf ext (headerGet resp.Header "Content-Type")
  if pe = "" then charsetOf ext (headerGet rq.Header "Content-Type") else pe

/-- Transcoding-failure warning (context.go lines 609 and 612). -/
def convertWarn (url : String) : String :=
  "convert " ++ url ++ ": ignore transcoding"

/-- The raw read shared by every fallthrough branch of `initText`
(context.go lines 617-624): read the whole body (panicking — `none` — when
the stream was already consumed), close it, and install it as the text. -/
def readRaw (c : Context) (resp : Response) (warn : List String) :
    Option (Context × List String) :=
  if resp.BodyClosed then none
  else some ({ c with Response := some { resp with BodyClosed := true },
                      text := resp.Body }, warn)

/-- `Context.initText` (context.go lines 573-625).  Only fetches attributed
to the Surf downloader engage charset sniffing; an absent or UTF-8-family
charset reads the raw bytes through unchanged; a declared non-UTF-8 charset
is transcoded, and on failure (unknown label or stream error) a warning is
logged and the raw bytes are read unchanged.  The stream consumption of a
failed external transcoder is not modelled: the fallthrough rereads the
(still unclosed) body from the start, which is the behaviour the code's own
comments describe. -/
def Context.initText (ext : Ext) (c : Context) :
    Option (Context × List String) :=
  match c.Response, c.Request with
  | some resp, some rq =>
      if rq.DownloaderID = SURF_ID then
        let pe := pageEncodeOf ext resp rq
        if pe ∈ utf8Names then readRaw c resp []
        else
          match ext.newReaderLabel pe with
          | none => readRaw c resp [convertWarn rq.Url]
          | some tr =>
              if resp.BodyClosed then readRaw c resp [convertWarn rq.Url]
              else
                match tr resp.Body with
                | some out =>
                    some ({ c with
                            Response := some { resp with BodyClosed := true },
                            text := out }, [])
                | none => readRaw c resp [convertWarn rq.Url]
      else readRaw c resp []
  | _, _ => none

/-- `Context.GetText` (context.go lines 537-542): the decoded text,
memoized with the empty string as the unfilled-cache sentinel. -/
def Context.GetText (ext : Ext) (c : Context) :
    Option (String × Context × List String) :=
  if c.text = "" then
    match c.initText ext with
    | some (c2, logs) => some (c2.text, c2, logs)
    | none => none
  else some (c.text, c, [])

/-- `Context.GetDom` (context.go lines 529-534 and 561-570): the parsed
document tree, memoized; built by parsing the decoded text. -/
def Context.GetDom (ext : Ext) (c : Context) :
    Option (Dom × Context × List String) :=
  match c.dom with
  | some d => some (d, c, [])
  | none =>
      match c.GetText ext with
      | some (t, c2, logs) =>
          some (parseDoc t, { c2 with dom := some (parseDoc t) }, logs)
      | none => none

/-- `Context.ResetText` (context.go lines 378-382): replace the decoded
text and invalidate the cached document tree. -/
def Context.ResetText (c : Context) (body : String) : Context :=
  { c with text := body, dom := none }

/-- One mutex-atomic buffer operation: the grain of interleaving that the
record/file mutex admits (emissions are the locked appends performed by
`Output`/`FileOutput`; drains are `PullItems`/`PullFiles`). -/
inductive Ev where
  | item (cell : DataCell)
  | file (cell : FileCell)
  | pullI
  | pullF

/-- Step of the interleaving semantics: the context together with the
concatenation of everything drained so far. -/
def stepEv : Context × List DataCell × List FileCell → Ev →
    Context × List DataCell × List FileCell
  | (c, di, df), Ev.item cell => ({ c with items := c.items.push cell }, di, df)
  | (c, di, df), Ev.file cell => ({ c with files := c.files.push cell }, di, df)
  | (c, di, df), Ev.pullI => ((c.PullItems).2, di ++ (c.PullItems).1, df)
  | (c, di, df), Ev.pullF => ((c.PullFiles).2, di, df ++ (c.PullFiles).1)

/-- Run an interleaving of emissions and drains against a context. -/
def runEvs (c : Context) (evs : List Ev) :
    Context × List DataCell × List FileCell :=
  List.foldl stepEv (c, [], []) evs

/-- The records emitted by an event sequence, in emission order. -/
def emittedItems : List Ev → List DataCell
  | [] => []
  | Ev.item cell :: es => cell :: emittedItems es
  | _ :: es => emittedItems es

/-- The files emitted by an event sequence, in emission order. -/
def emittedFiles : List Ev → List FileCell
  | [] => []
  | Ev.file cell :: es => cell :: emittedFiles es
  | _ :: es => emittedFiles es

/-- External-library instance with trivial hooks (no parseable media types,
no known charset labels), used for concrete evaluations. -/
def extNone : Ext := ⟨fun _ => none, fun _ => none⟩

/-- A transcoder that always fails with a stream error. -/
def trFail : String → Option String := fun _ => none

/-- External-library instance recognizing one media type with charset
parameter `" GBK "` and one charset label `gbk` whose transcoder fails,
used for concrete evaluations. -/
def extW : Ext :=
  ⟨fun ct =>
      if ct = "text/html; charset=GBK" then
        some ("text/html", [("charset", " GBK ")])
      else none,
   fun label => if label = "gbk" then some trFail else none⟩

/-- Concrete spider fixture: one rule `r` with field table `["a"]`. -/
def spW : Spider := { Name := "s", Rules := [("r", { ItemFields := ["a"] })] }

/-- Concrete request fixture. -/
def rqW : Request := { Url := "http://u.example/a/p.csv?q=1" }

/-- Concrete response fixture. -/
def respW : Response :=
  { Header := [("Content-Type", ["text/html; charset=GBK"])],
    ReqHeader := [("Referer", ["http://ref.example/"])],
    Body := "BODY" }

end Pholcus

namespace Pholcus

/- ------------------------------------------------------------------ -/
/- Helper lemmas                                                       -/
/- ------------------------------------------------------------------ -/

theorem idxOf?_eq_none {l : List String} {k : String} :
    idxOf? l k = none ↔ k ∉ l := by
  induction l with
  | nil => simp [idxOf?]
  | cons x xs ih =>
      by_cases h : x = k
      · subst h; simp [idxOf?]
      · simp [idxOf?, h, ih, Option.map_eq_none', Ne.symm h]

theorem alookup_aset {α : Type} :
    ∀ (l : List (String × α)) (k : String) (v w : α),
      alookup l k = some v → alookup (aset l k w) k = some w := by
  intro l
  induction l with
  | nil => intro k v w h; simp [alookup] at h
  | cons p rest ih =>
      intro k v w h
      by_cases hk : p.1 = k
      · simp [alookup, aset, hk]
      · simp [alookup, aset, hk] at h ⊢
        exact ih k v w h

theorem aset_self {α : Type} :
    ∀ (l : List (String × α)) (k : String) (v : α),
      alookup l k = some v → aset l k v = l := by
  intro l
  induction l with
  | nil => intro k v h; simp [alookup] at h
  | cons p rest ih =>
      obtain ⟨k0, v0⟩ := p
      intro k v h
      by_cases hk : k0 = k
      · simp [alookup, hk] at h
        simp [aset, hk, h]
      · simp [alookup, hk] at h
        simp [aset, hk, ih k v h]

theorem upsertField_fields (r : Rule) (k : String) :
    (r.upsertField k).1.ItemFields =
      if k ∈ r.ItemFields then r.ItemFields else r.ItemFields ++ [k] := by
  unfold Rule.upsertField
  cases h : idxOf? r.ItemFields k with
  | none =>
      have hk : k ∉ r.ItemFields := idxOf?_eq_none.mp h
      simp [hk]
  | some i =>
      have hk : k ∈ r.ItemFields := by
        by_contra hc
        rw [idxOf?_eq_none.mpr hc] at h
        cases h
      simp [hk]

theorem upsert_GetRule (sp : Spider) (rn k : String) (r : Rule)
    (hr : sp.GetRule rn = some r) :
    (sp.UpsertItemField rn k).1.GetRule rn = some (r.upsertField k).1 ∧
      (sp.UpsertItemField rn k).2 = (r.upsertField k).2 := by
  unfold Spider.UpsertItemField
  rw [hr]
  exact ⟨alookup_aset sp.Rules rn r _ hr, rfl⟩

theorem upsertAll_getRule (rn : String) (keys : List String) :
    ∀ (sp : Spider) (r : Rule), sp.GetRule rn = some r →
      ∃ r2, (upsertAll sp rn keys).GetRule rn = some r2 ∧
        r2.ItemFields = r.ItemFields ++ newOf keys r.ItemFields := by
  induction keys with
  | nil => intro sp r hr; exact ⟨r, hr, by simp [newOf]⟩
  | cons k ks ih =>
      intro sp r hr
      have h1 := upsert_GetRule sp rn k r hr
      obtain ⟨r2, hg, hf⟩ := ih ((sp.UpsertItemField rn k).1)
        ((r.upsertField k).1) h1.1
      refine ⟨r2, ?_, ?_⟩
      · simpa [upsertAll] using hg
      · rw [hf, upsertField_fields]
        by_cases hk : k ∈ r.ItemFields
        · simp [hk, newOf]
        · simp [hk, newOf, List.append_assoc]

theorem mem_newOf_closure (k : String) (keys : List String) :
    ∀ fields, k ∈ keys → k ∈ fields ++ newOf keys fields := by
  induction keys with
  | nil => intro fields h; cases h
  | cons k0 ks ih =>
      intro fields hk
      by_cases h0 : k0 ∈ fields
      · simp only [newOf, if_pos h0]
        rcases List.mem_cons.mp hk with rfl | hk2
        · exact List.mem_append.mpr (Or.inl h0)
        · exact ih fields hk2
      · simp only [newOf, if_neg h0]
        rcases List.mem_cons.mp hk with rfl | hk2
        · exact List.mem_append.mpr (Or.inr (List.mem_cons_self _ _))
        · have := ih (fields ++ [k0]) hk2
          simpa [List.append_assoc] using this

theorem foldl_stepEv_inv (evs : List Ev) :
    ∀ (c : Context) (di : List DataCell) (df : List FileCell),
      ((List.foldl stepEv (c, di, df) evs).2.1 ++
          (List.foldl stepEv (c, di, df) evs).1.items.elems =
        di ++ c.items.elems ++ emittedItems evs) ∧
      ((List.foldl stepEv (c, di, df) evs).2.2 ++
          (List.foldl stepEv (c, di, df) evs).1.files.elems =
        df ++ c.files.elems ++ emittedFiles evs) := by
  induction evs with
  | nil => intro c di df; simp [emittedItems, emittedFiles]
  | cons e es ih =>
      intro c di df
      cases e with
      | item cell =>
          simp only [List.foldl_cons, stepEv, emittedItems, emittedFiles]
          constructor
          · rw [(ih _ _ _).1]; simp [Buf.push, List.append_assoc]
          · rw [(ih _ _ _).2]
      | file cell =>
          simp only [List.foldl_cons, stepEv, emittedItems, emittedFiles]
          constructor
          · rw [(ih _ _ _).1]
          · rw [(ih _ _ _).2]; simp [Buf.push, List.append_assoc]
      | pullI =>
          simp only [List.foldl_cons, stepEv, emittedItems, emittedFiles,
            Context.PullItems]
          constructor
          · rw [(ih _ _ _).1]; simp [Buf.fresh, List.append_assoc]
          · rw [(ih _ _ _).2]
      | pullF =>
          simp only [List.foldl_cons, stepEv, emittedItems, emittedFiles,
            Context.PullFiles]
          constructor
          · rw [(ih _ _ _).1]
          · rw [(ih _ _ _).2]; simp [Buf.fresh, List.append_assoc]

theorem foldl_pushItems (cells : List DataCell) :
    ∀ c : Context,
      (List.foldl (fun c2 cell => { c2 with items := c2.items.push cell })
          c cells).items.elems = c.items.elems ++ cells := by
  induction cells with
  | nil => intro c; simp
  | cons x xs ih =>
      intro c
      simp only [List.foldl_cons]
      rw [ih]
      simp [Buf.push]

/- ------------------------------------------------------------------ -/
/- Claim theorems                                                      -/
/- ------------------------------------------------------------------ -/

/-- C5: release-then-acquire round trip.  `PutContext` clears every field —
both buffers are truncated to zero length in place (capacity preserved, not
reallocated) and spider, request, response, cached text, cached document
tree and error slot are all detached — so a context subsequently returned
by `GetContext` has empty record and file buffers, no response, an empty
decoded-text cache, and no state leaked from the prior cycle. -/
theorem putContext_getContext_roundtrip (c : Context) (sp : Spider)
    (rq : Request) :
    (PutContext c).spider = none ∧
    (PutContext c).Request = none ∧
    (PutContext c).Response = none ∧
    (PutContext c).text = "" ∧
    (PutContext c).dom = none ∧
    (PutContext c).err = none ∧
    (PutContext c).items.elems = [] ∧
    (PutContext c).files.elems = [] ∧
    (PutContext c).items.cap = c.items.cap ∧
    (PutContext c).files.cap = c.files.cap ∧
    (GetContext (PutContext c) sp rq).spider = some sp ∧
    (GetContext (PutContext c) sp rq).Request = some rq ∧
    (GetContext (PutContext c) sp rq).Response = none ∧
    (GetContext (PutContext c) sp rq).text = "" ∧
    (GetContext (PutContext c) sp rq).dom = none ∧
    (GetContext (PutContext c) sp rq).err = none ∧
    (GetContext (PutContext c) sp rq).items.elems = [] ∧
    (GetContext (PutContext c) sp rq).files.elems = [] :=
  ⟨rfl, rfl, rfl, rfl, rfl, rfl, rfl, rfl, rfl, rfl, rfl, rfl, rfl, rfl,
   rfl, rfl, rfl, rfl⟩

/-- C2: draining is destructive and order-preserving.  `PullItems`
(`PullFiles`) returns exactly the buffered records (files) and leaves an
empty buffer; across any interleaving of mutex-atomic emissions and drains,
the concatenation of everything drained followed by the residual buffer
equals the initial buffer followed by all emitted cells in emission order —
no cell is lost or duplicated; and the cells returned by a drain are
exactly those emitted since the previous drain, in order. -/
theorem pull_drain_conservation (c : Context) (evs : List Ev)
    (cells : List DataCell) :
    ((c.PullItems).1 = c.items.elems) ∧
    ((c.PullItems).2.items.elems = []) ∧
    ((c.PullFiles).1 = c.files.elems) ∧
    ((c.PullFiles).2.files.elems = []) ∧
    ((runEvs c evs).2.1 ++ (runEvs c evs).1.items.elems =
        c.items.elems ++ emittedItems evs) ∧
    ((runEvs c evs).2.2 ++ (runEvs c evs).1.files.elems =
        c.files.elems ++ emittedFiles evs) ∧
    ((List.foldl (fun c2 cell => { c2 with items := c2.items.push cell })
        ((c.PullItems).2) cells).PullItems.1 = cells) := by
  refine ⟨rfl, rfl, rfl, rfl, ?_, ?_, ?_⟩
  · simpa [runEvs] using (foldl_stepEv_inv evs c [] []).1
  · simpa [runEvs] using (foldl_stepEv_inv evs c [] []).2
  · simp only [Context.PullItems]
    rw [foldl_pushItems]
    rfl

/-- C1 (counterexample): the claim's subset property fails for index-keyed
emission with an out-of-range index.  With rule `r` having an empty field
table, `Output` of the index-keyed item `0 ↦ 7` succeeds and appends a
record whose single field key is `""` (the empty-string name returned for a
missing index), while the rule's field table stays empty — so the record's
keys are not a subset of the field-table names at the time of emission. -/
theorem output_fieldTable_cex :
    (Context.Output
        (mkCtx { Name := "s", NotDefaultField := true,
                 Rules := [("r", { ItemFields := [] })] }
          {} none "" none {} {} none)
        "T" (OutputItem.byIndex [(0, Val.int 7)]) (some "r") =
      some ({ mkCtx { Name := "s", NotDefaultField := true,
                      Rules := [("r", { ItemFields := [] })] }
                {} none "" none {} {} none with
                items := { cap := 1,
                           elems := [GetDataCell "r" (some [("", Val.int 7)])
                                      "" "" ""] } }, [])) ∧
    Spider.ruleFields
        { Name := "s", NotDefaultField := true,
          Rules := [("r", { ItemFields := [] })] } "r" = [] ∧
    ¬ ("" ∈ ([] : List String)) :=
  ⟨rfl, rfl, by decide⟩

/-- C1 (amended): field-table discipline of `Output`.  For a name-keyed
emission (free-form map or `request.Temp`), every key of the emitted record
is upserted into the resolved rule's field table before the record is
appended, so the record's keys are a subset of the table afterwards; the
table grows by exactly the emission's distinct fresh keys, appended in
order; re-insertion of an existing name is a no-op that keeps its existing
index, and a new name is appended with index equal to the append position.
An index-keyed emission leaves the spider (hence every field table)
unchanged and only translates indices through the already-existing table —
but an out-of-range index translates to the empty-string field name, which
need not belong to the table (see the counterexample). -/
theorem output_fieldTable_amended
    (sp : Spider) (rq : Request) (resp : Response) (txt : String)
    (dm : Option Dom) (it : Buf DataCell) (fl : Buf FileCell)
    (er : Option String) (rn now : String) (r : Rule)
    (m : List (String × Val)) (mi : List (Int × Val)) (k kEx kNew : String)
    (hr : sp.GetRule rn = some r) (hnd : sp.NotDefaultField = false)
    (hk : k ∈ keysOf m) (hkEx : kEx ∈ r.ItemFields)
    (hkNew : kNew ∉ r.ItemFields) :
    ((mkCtx sp rq (some resp) txt dm it fl er).Output now
        (OutputItem.byName m) (some rn) =
      some ({ mkCtx sp rq (some resp) txt dm it fl er with
                spider := some (upsertAll sp rn (keysOf m)),
                items := it.push (GetDataCell rn (some m) rq.Url
                  (headerGet resp.ReqHeader "Referer") now) }, [])) ∧
    ((mkCtx sp rq (some resp) txt dm it fl er).Output now
        (OutputItem.temp m) (some rn) =
      some ({ mkCtx sp rq (some resp) txt dm it fl er with
                spider := some (upsertAll sp rn (keysOf m)),
                items := it.push (GetDataCell rn (some m) rq.Url
                  (headerGet resp.ReqHeader "Referer") now) }, [])) ∧
    ((upsertAll sp rn (keysOf m)).ruleFields rn =
        r.ItemFields ++ newOf (keysOf m) r.ItemFields) ∧
    (k ∈ (upsertAll sp rn (keysOf m)).ruleFields rn) ∧
    ((sp.UpsertItemField rn kEx).1 = sp) ∧
    (idxOf? r.ItemFields kEx = some (sp.UpsertItemField rn kEx).2) ∧
    ((sp.UpsertItemField rn kNew).1.ruleFields rn = r.ItemFields ++ [kNew]) ∧
    ((sp.UpsertItemField rn kNew).2 = r.ItemFields.length) ∧
    ((mkCtx sp rq (some resp) txt dm it fl er).Output now
        (OutputItem.byIndex mi) (some rn) =
      some ({ mkCtx sp rq (some resp) txt dm it fl er with
                items := it.push (GetDataCell rn
                  (some (mi.foldl
                    (fun acc kv => mapSet acc (sp.GetItemField r kv.1) kv.2)
                    []))
                  rq.Url (headerGet resp.ReqHeader "Referer") now) }, [])) := by
  have hfields : (upsertAll sp rn (keysOf m)).ruleFields rn =
      r.ItemFields ++ newOf (keysOf m) r.ItemFields := by
    obtain ⟨r2, hg, hf⟩ := upsertAll_getRule rn (keysOf m) sp r hr
    simp [Spider.ruleFields, hg, hf]
  have hidx : ∃ i, idxOf? r.ItemFields kEx = some i := by
    cases h : idxOf? r.ItemFields kEx with
    | none => exact absurd (idxOf?_eq_none.mp h) (by simp [hkEx])
    | some i => exact ⟨i, rfl⟩
  obtain ⟨i, hi⟩ := hidx
  have haset : aset sp.Rules rn r = sp.Rules := aset_self sp.Rules rn r hr
  have hup : sp.UpsertItemField rn kEx = (sp, i) := by
    simp [Spider.UpsertItemField, Rule.upsertField, hr, hi, haset]
  have hnone : idxOf? r.ItemFields kNew = none := idxOf?_eq_none.mpr hkNew
  have hupNew : sp.UpsertItemField rn kNew =
      ({ sp with Rules := aset sp.Rules rn (Rule.mk (r.ItemFields ++ [kNew])) },
       r.ItemFields.length) := by
    simp [Spider.UpsertItemField, Rule.upsertField, hr, hnone]
  refine ⟨?_, ?_, hfields, ?_, ?_, ?_, ?_, ?_, ?_⟩
  · simp [Context.Output, Context.getRule, mkCtx, hr, hnd]
  · simp [Context.Output, Context.getRule, mkCtx, hr, hnd]
  · rw [hfields]; exact mem_newOf_closure k (keysOf m) r.ItemFields hk
  · rw [hup]
  · rw [hup, hi]
  · rw [hupNew]
    simp [Spider.ruleFields, Spider.GetRule,
      alookup_aset sp.Rules rn r (Rule.mk (r.ItemFields ++ [kNew])) hr]
  · rw [hupNew]
  · simp [Context.Output, Context.getRule, Context.CreatItem, mkCtx, hr, hnd]

/-- C1 (witness): the amended theorem applied at a concrete spider with one
rule `r` whose table is `["a"]`, a name-keyed item with keys `a` (existing)
and `b` (fresh), and an index-keyed item `0 ↦ 3`. -/
theorem output_fieldTable_amended_w :
    (spW.GetRule "r" = some { ItemFields := ["a"] }) ∧
    (spW.NotDefaultField = false) ∧
    ("b" ∈ keysOf [("a", Val.int 1), ("b", Val.int 2)]) ∧
    ("a" ∈ (["a"] : List String)) ∧
    ("b" ∉ (["a"] : List String)) ∧
    (((mkCtx spW rqW (some respW) "" none {} {} none).Output "T"
        (OutputItem.byName [("a", Val.int 1), ("b", Val.int 2)]) (some "r") =
      some ({ mkCtx spW rqW (some respW) "" none {} {} none with
                spider := some (upsertAll spW "r"
                  (keysOf [("a", Val.int 1), ("b", Val.int 2)])),
                items := Buf.push {} (GetDataCell "r"
                  (some [("a", Val.int 1), ("b", Val.int 2)]) rqW.Url
                  (headerGet respW.ReqHeader "Referer") "T") }, [])) ∧
    ((mkCtx spW rqW (some respW) "" none {} {} none).Output "T"
        (OutputItem.temp [("a", Val.int 1), ("b", Val.int 2)]) (some "r") =
      some ({ mkCtx spW rqW (some respW) "" none {} {} none with
                spider := some (upsertAll spW "r"
                  (keysOf [("a", Val.int 1), ("b", Val.int 2)])),
                items := Buf.push {} (GetDataCell "r"
                  (some [("a", Val.int 1), ("b", Val.int 2)]) rqW.Url
                  (headerGet respW.ReqHeader "Referer") "T") }, [])) ∧
    ((upsertAll spW "r" (keysOf [("a", Val.int 1), ("b", Val.int 2)])).ruleFields "r" =
        ["a"] ++ newOf (keysOf [("a", Val.int 1), ("b", Val.int 2)]) ["a"]) ∧
    ("b" ∈ (upsertAll spW "r"
        (keysOf [("a", Val.int 1), ("b", Val.int 2)])).ruleFields "r") ∧
    ((spW.UpsertItemField "r" "a").1 = spW) ∧
    (idxOf? ["a"] "a" = some (spW.UpsertItemField "r" "a").2) ∧
    ((spW.UpsertItemField "r" "b").1.ruleFields "r" = ["a"] ++ ["b"]) ∧
    ((spW.UpsertItemField "r" "b").2 = List.length ["a"]) ∧
    ((mkCtx spW rqW (some respW) "" none {} {} none).Output "T"
        (OutputItem.byIndex [(0, Val.int 3)]) (some "r") =
      some ({ mkCtx spW rqW (some respW) "" none {} {} none with
                items := Buf.push {} (GetDataCell "r"
                  (some ([(0, Val.int 3)].foldl
                    (fun acc kv =>
                      mapSet acc
                        (spW.GetItemField { ItemFields := ["a"] } kv.1) kv.2)
                    []))
                  rqW.Url (headerGet respW.ReqHeader "Referer") "T") }, []))) :=
  ⟨rfl, rfl, by decide, by decide, by decide,
   output_fieldTable_amended spW rqW respW "" none {} {} none "r" "T"
     { ItemFields := ["a"] } [("a", Val.int 1), ("b", Val.int 2)]
     [(0, Val.int 3)] "b" "a" "b" rfl rfl (by decide) (by decide) (by decide)⟩

/-- C9: resolution failure of `Output` and `CreatItem` — a named rule
absent from the spider's rule table, or no name given with no bound
response — is logged rather than raised: the call returns normally, the
context (record buffer included) and the spider's field tables are
returned unchanged, and `CreatItem` yields the nil map. -/
theorem output_resolution_noop
    (sp : Spider) (rq : Request) (rsp : Option Response) (txt : String)
    (dm : Option Dom) (it : Buf DataCell) (fl : Buf FileCell)
    (er : Option String) (rnMiss now : String) (item : OutputItem)
    (mi : List (Int × Val))
    (hmiss : sp.GetRule rnMiss = none) :
    ((mkCtx sp rq rsp txt dm it fl er).Output now item (some rnMiss) =
      some (mkCtx sp rq rsp txt dm it fl er, [outputRuleMiss sp.Name])) ∧
    ((mkCtx sp rq none txt dm it fl er).Output now item none =
      some (mkCtx sp rq none txt dm it fl er, [outputRuleMiss sp.Name])) ∧
    ((mkCtx sp rq rsp txt dm it fl er).CreatItem mi (some rnMiss) =
      some (none, [creatItemRuleMiss sp.Name])) ∧
    ((mkCtx sp rq none txt dm it fl er).CreatItem mi none =
      some (none, [creatItemRuleMiss sp.Name])) := by
  refine ⟨?_, ?_, ?_, ?_⟩
  · simp [Context.Output, Context.getRule, mkCtx, hmiss]
  · simp [Context.Output, Context.getRule, mkCtx]
  · simp [Context.CreatItem, Context.getRule, mkCtx, hmiss]
  · simp [Context.CreatItem, Context.getRule, mkCtx]

/-- C9 (witness): the theorem applied to the concrete spider `spW` (whose
table has no rule `zzz`). -/
theorem output_resolution_noop_w :
    (spW.GetRule "zzz" = none) ∧
    (((mkCtx spW rqW none "" none {} {} none).Output "T"
        (OutputItem.other (Val.any 0)) (some "zzz") =
      some (mkCtx spW rqW none "" none {} {} none, [outputRuleMiss spW.Name])) ∧
    ((mkCtx spW rqW none "" none {} {} none).Output "T"
        (OutputItem.other (Val.any 0)) none =
      some (mkCtx spW rqW none "" none {} {} none, [outputRuleMiss spW.Name])) ∧
    ((mkCtx spW rqW none "" none {} {} none).CreatItem [] (some "zzz") =
      some (none, [creatItemRuleMiss spW.Name])) ∧
    ((mkCtx spW rqW none "" none {} {} none).CreatItem [] none =
      some (none, [creatItemRuleMiss spW.Name]))) :=
  ⟨rfl,
   output_resolution_noop spW rqW none "" none {} {} none "zzz" "T"
     (OutputItem.other (Val.any 0)) [] rfl⟩

/-- C3: rule resolution and dispatch.  With an explicit name, the rule is
resolved against the spider's rule table; with no explicit name, the name
defaults to the rule name recorded on the bound request, and resolution
fails (name `""`, not found) when no response is bound either.  When a
response is bound the resolved name is written back onto the request —
whether or not a rule was found.  A missing rule diverts dispatch to the
owning spider's root handler instead of failing; a found rule has its
`ParseFunc` invoked with the context as argument. -/
theorem parse_dispatch
    (sp : Spider) (rq : Request) (resp : Response) (txt : String)
    (dm : Option Dom) (it : Buf DataCell) (fl : Buf FileCell)
    (er : Option String) (rn1 rn0 : String) (r : Rule)
    (hr1 : sp.GetRule rn1 = some r) (hr0 : sp.GetRule rn0 = none) :
    ((mkCtx sp rq (some resp) txt dm it fl er).Parse (some rn1) =
      some ({ mkCtx sp rq (some resp) txt dm it fl er with
                Request := some (rq.SetRuleName rn1) }, Invoked.rule rn1 r)) ∧
    ((mkCtx sp rq none txt dm it fl er).Parse (some rn1) =
      some (mkCtx sp rq none txt dm it fl er, Invoked.rule rn1 r)) ∧
    ((mkCtx sp rq (some resp) txt dm it fl er).Parse (some rn0) =
      some ({ mkCtx sp rq (some resp) txt dm it fl er with
                Request := some (rq.SetRuleName rn0) }, Invoked.root)) ∧
    ((mkCtx sp rq none txt dm it fl er).getRule none = some ("", none)) ∧
    ((mkCtx sp rq none txt dm it fl er).Parse none =
      some (mkCtx sp rq none txt dm it fl er, Invoked.root)) ∧
    ((mkCtx sp rq (some resp) txt dm it fl er).getRule none =
      some (rq.GetRuleName, sp.GetRule rq.GetRuleName)) := by
  refine ⟨?_, ?_, ?_, ?_, ?_, ?_⟩ <;>
    simp [Context.Parse, Context.getRule, mkCtx, hr1, hr0]

/-- C3 (witness): the theorem applied at the concrete spider `spW`, whose
table has a rule `r` and no rule `zzz`. -/
theorem parse_dispatch_w :
    (spW.GetRule "r" = some { ItemFields := ["a"] }) ∧
    (spW.GetRule "zzz" = none) ∧
    (((mkCtx spW rqW (some respW) "" none {} {} none).Parse (some "r") =
      some ({ mkCtx spW rqW (some respW) "" none {} {} none with
                Request := some (rqW.SetRuleName "r") },
            Invoked.rule "r" { ItemFields := ["a"] })) ∧
    ((mkCtx spW rqW none "" none {} {} none).Parse (some "r") =
      some (mkCtx spW rqW none "" none {} {} none,
            Invoked.rule "r" { ItemFields := ["a"] })) ∧
    ((mkCtx spW rqW (some respW) "" none {} {} none).Parse (some "zzz") =
      some ({ mkCtx spW rqW (some respW) "" none {} {} none with
                Request := some (rqW.SetRuleName "zzz") }, Invoked.root)) ∧
    ((mkCtx spW rqW none "" none {} {} none).getRule none = some ("", none)) ∧
    ((mkCtx spW rqW none "" none {} {} none).Parse none =
      some (mkCtx spW rqW none "" none {} {} none, Invoked.root)) ∧
    ((mkCtx spW rqW (some respW) "" none {} {} none).getRule none =
      some (rqW.GetRuleName, spW.GetRule rqW.GetRuleName))) :=
  ⟨rfl, rfl,
   parse_dispatch spW rqW respW "" none {} {} none "r" "zzz"
     { ItemFields := ["a"] } rfl rfl⟩

/-- C4: charset handling of `initText` never aborts the fetch.  A fetch not
attributed to the Surf downloader reads the raw bytes through unchanged
with no warning; so does a Surf fetch whose declared charset (response
Content-Type first, else request Content-Type, trimmed and lowercased) is
absent or a UTF-8 family name; a Surf fetch with a non-UTF-8 declared
charset whose label is unknown, or whose transcoder fails, logs a warning
and again reads the raw bytes unchanged. -/
theorem initText_fallback
    (ext : Ext) (sp : Spider) (rq : Request) (resp : Response) (txt : String)
    (dm : Option Dom) (it : Buf DataCell) (fl : Buf FileCell)
    (er : Option String) (tr : String → Option String)
    (hb : resp.BodyClosed = false) :
    (rq.DownloaderID ≠ SURF_ID →
      (mkCtx sp rq (some resp) txt dm it fl er).initText ext =
        some ({ mkCtx sp rq (some resp) txt dm it fl er with
                  Response := some { resp with BodyClosed := true },
                  text := resp.Body }, [])) ∧
    (rq.DownloaderID = SURF_ID → pageEncodeOf ext resp rq ∈ utf8Names →
      (mkCtx sp rq (some resp) txt dm it fl er).initText ext =
        some ({ mkCtx sp rq (some resp) txt dm it fl er with
                  Response := some { resp with BodyClosed := true },
                  text := resp.Body }, [])) ∧
    (rq.DownloaderID = SURF_ID → pageEncodeOf ext resp rq ∉ utf8Names →
      ext.newReaderLabel (pageEncodeOf ext resp rq) = none →
      (mkCtx sp rq (some resp) txt dm it fl er).initText ext =
        some ({ mkCtx sp rq (some resp) txt dm it fl er with
                  Response := some { resp with BodyClosed := true },
                  text := resp.Body }, [convertWarn rq.Url])) ∧
    (rq.DownloaderID = SURF_ID → pageEncodeOf ext resp rq ∉ utf8Names →
      ext.newReaderLabel (pageEncodeOf ext resp rq) = some tr →
      tr resp.Body = none →
      (mkCtx sp rq (some resp) txt dm it fl er).initText ext =
        some ({ mkCtx sp rq (some resp) txt dm it fl er with
                  Response := some { resp with BodyClosed := true },
                  text := resp.Body }, [convertWarn rq.Url])) := by
  refine ⟨?_, ?_, ?_, ?_⟩
  · intro h1
    simp [Context.initText, mkCtx, readRaw, hb, h1]
  · intro h1 h2
    simp [Context.initText, mkCtx, readRaw, hb, h1, h2]
  · intro h1 h2 h3
    simp [Context.initText, mkCtx, readRaw, hb, h1, h2, h3]
  · intro h1 h2 h3 h4
    simp [Context.initText, mkCtx, readRaw, hb, h1, h2, h3, h4]

/-- C4 (witness): the theorem applied with the concrete hooks `extW` (which
declare charset ` GBK ` on the response's media type, normalized to `gbk`,
whose transcoder fails with a stream error) and the concrete response
`respW`. -/
theorem initText_fallback_w :
    (respW.BodyClosed = false) ∧
    ((rqW.DownloaderID ≠ SURF_ID →
      (mkCtx spW rqW (some respW) "" none {} {} none).initText extW =
        some ({ mkCtx spW rqW (some respW) "" none {} {} none with
                  Response := some { respW with BodyClosed := true },
                  text := respW.Body }, [])) ∧
    (rqW.DownloaderID = SURF_ID → pageEncodeOf extW respW rqW ∈ utf8Names →
      (mkCtx spW rqW (some respW) "" none {} {} none).initText extW =
        some ({ mkCtx spW rqW (some respW) "" none {} {} none with
                  Response := some { respW with BodyClosed := true },
                  text := respW.Body }, [])) ∧
    (rqW.DownloaderID = SURF_ID → pageEncodeOf extW respW rqW ∉ utf8Names →
      extW.newReaderLabel (pageEncodeOf extW respW rqW) = none →
      (mkCtx spW rqW (some respW) "" none {} {} none).initText extW =
        some ({ mkCtx spW rqW (some respW) "" none {} {} none with
                  Response := some { respW with BodyClosed := true },
                  text := respW.Body }, [convertWarn rqW.Url])) ∧
    (rqW.DownloaderID = SURF_ID → pageEncodeOf extW respW rqW ∉ utf8Names →
      extW.newReaderLabel (pageEncodeOf extW respW rqW) = some trFail →
      trFail respW.Body = none →
      (mkCtx spW rqW (some respW) "" none {} {} none).initText extW =
        some ({ mkCtx spW rqW (some respW) "" none {} {} none with
                  Response := some { respW with BodyClosed := true },
                  text := respW.Body }, [convertWarn rqW.Url]))) :=
  ⟨rfl,
   initText_fallback extW spW rqW respW "" none {} {} none trFail rfl⟩

/-- C6 (counterexample): the emitted filename is not the query-stripped
last path segment, and the override's extension is not preferred.  For url
`http://x.test/a/a.b.csv` the derived name is `a.csv` (base name is cut at
the first dot), not `a.b.csv`; and for url `http://x.test/a/report.csv`
with override `out.json` the derived name is `out.csv` — the url's
extension wins over the override's, contrary to the claim. -/
theorem fileOutput_naming_cex :
    (fileOutputBase "http://x.test/a/a.b.csv" none = "a.csv") ∧
    ("a.csv" ≠ "a.b.csv") ∧
    (fileOutputBase "http://x.test/a/report.csv" (some "out.json") =
      "out.csv") ∧
    ("out.csv" ≠ "out.json") ∧
    (Context.FileOutput
        (mkCtx {} { Url := "http://x.test/a/a.b.csv" } (some { Body := "B" })
          "" none {} {} none) none =
      some (mkCtx {} { Url := "http://x.test/a/a.b.csv" }
          (some { Body := "B", BodyClosed := true }) "" none {}
          { cap := 1, elems := [GetFileCell "" "a.csv" "B"] } none)) :=
  ⟨rfl, by decide, rfl, by decide, rfl⟩

/-- C6 (amended): filename derivation of `FileOutput`.  With no override,
the emitted filename is the query-stripped last path segment's portion
before its first dot, with the extension taken from its last dot (default
`.html`); with an override, the override's first-dot base name (prefixed
with the override's directory part) is used when nonempty, the url-derived
extension is kept whenever it is nonempty and the override's extension is
consulted only otherwise, and the extension still defaults to `.html`.  The
spec's two concrete examples hold as stated. -/
theorem fileOutput_naming_amended
    (sp : Spider) (rq : Request) (resp : Response) (txt : String)
    (dm : Option Dom) (it : Buf DataCell) (fl : Buf FileCell)
    (er : Option String) (nm : String)
    (hb : resp.BodyClosed = false) :
    ((mkCtx sp rq (some resp) txt dm it fl er).FileOutput none =
      some { mkCtx sp rq (some resp) txt dm it fl er with
               Response := some { resp with BodyClosed := true },
               files := fl.push (GetFileCell rq.GetRuleName
                 (splitHead (splitHead (pathSplit rq.Url).2 '?') '.' ++
                   (if pathExt (splitHead (pathSplit rq.Url).2 '?') = ""
                    then ".html"
                    else pathExt (splitHead (pathSplit rq.Url).2 '?')))
                 resp.Body) }) ∧
    ((mkCtx sp rq (some resp) txt dm it fl er).FileOutput (some nm) =
      some { mkCtx sp rq (some resp) txt dm it fl er with
               Response := some { resp with BodyClosed := true },
               files := fl.push (GetFileCell rq.GetRuleName
                 ((if splitHead (pathSplit nm).2 '.' ≠ ""
                   then (pathSplit nm).1 ++ splitHead (pathSplit nm).2 '.'
                   else splitHead (splitHead (pathSplit rq.Url).2 '?') '.') ++
                  (if pathExt (splitHead (pathSplit rq.Url).2 '?') ≠ ""
                   then pathExt (splitHead (pathSplit rq.Url).2 '?')
                   else if pathExt (pathSplit nm).2 = "" then ".html"
                        else pathExt (pathSplit nm).2))
                 resp.Body) }) ∧
    (fileOutputBase "http://x.test/a/report.csv?x=1" none = "report.csv") ∧
    (fileOutputBase "http://x.test/a/report.csv?x=1" (some "out") =
      "out.csv") := by
  refine ⟨?_, ?_, rfl, rfl⟩
  · simp [Context.FileOutput, fileOutputBase, mkCtx, hb]
  · by_cases hx : pathExt (splitHead (pathSplit rq.Url).2 '?') = "" <;>
      simp [Context.FileOutput, fileOutputBase, mkCtx, hb, hx]

/-- C6 (witness): the amended theorem applied at the concrete request
`rqW` (url `http://u.example/a/p.csv?q=1`) and override `out.json`. -/
theorem fileOutput_naming_amended_w :
    (respW.BodyClosed = false) ∧
    (((mkCtx spW rqW (some respW) "" none {} {} none).FileOutput none =
      some { mkCtx spW rqW (some respW) "" none {} {} none with
               Response := some { respW with BodyClosed := true },
               files := Buf.push {} (GetFileCell rqW.GetRuleName
                 (splitHead (splitHead (pathSplit rqW.Url).2 '?') '.' ++
                   (if pathExt (splitHead (pathSplit rqW.Url).2 '?') = ""
                    then ".html"
                    else pathExt (splitHead (pathSplit rqW.Url).2 '?')))
                 respW.Body) }) ∧
    ((mkCtx spW rqW (some respW) "" none {} {} none).FileOutput
        (some "out.json") =
      some { mkCtx spW rqW (some respW) "" none {} {} none with
               Response := some { respW with BodyClosed := true },
               files := Buf.push {} (GetFileCell rqW.GetRuleName
                 ((if splitHead (pathSplit "out.json").2 '.' ≠ ""
                   then (pathSplit "out.json").1 ++
                     splitHead (pathSplit "out.json").2 '.'
                   else splitHead (splitHead (pathSplit rqW.Url).2 '?') '.') ++
                  (if pathExt (splitHead (pathSplit rqW.Url).2 '?') ≠ ""
                   then pathExt (splitHead (pathSplit rqW.Url).2 '?')
                   else if pathExt (pathSplit "out.json").2 = "" then ".html"
                        else pathExt (pathSplit "out.json").2))
                 respW.Body) }) ∧
    (fileOutputBase "http://x.test/a/report.csv?x=1" none = "report.csv") ∧
    (fileOutputBase "http://x.test/a/report.csv?x=1" (some "out") =
      "out.csv")) :=
  ⟨rfl,
   fileOutput_naming_amended spW rqW respW "" none {} {} none "out.json" rfl⟩

/-- Text cache equation: a successful `GetText` leaves exactly the returned
string in the context's text cache. -/
theorem getText_text_eq (ext : Ext) (c c2 : Context) (t : String)
    (logs : List String) (h : c.GetText ext = some (t, c2, logs)) :
    c2.text = t := by
  unfold Context.GetText at h
  by_cases hc : c.text = ""
  · rw [if_pos hc] at h
    cases hi : c.initText ext with
    | none => rw [hi] at h; exact absurd h (by simp)
    | some p =>
        obtain ⟨cc, lg⟩ := p
        rw [hi] at h
        simp only [Option.some.injEq, Prod.mk.injEq] at h
        obtain ⟨h1, h2, h3⟩ := h
        rw [← h2]
        exact h1
  · rw [if_neg hc] at h
    simp only [Option.some.injEq, Prod.mk.injEq] at h
    obtain ⟨h1, h2, h3⟩ := h
    rw [← h2]
    exact h1

/-- Document cache equation: a successful `GetDom` leaves exactly the
returned document in the context's dom cache. -/
theorem getDom_dom_eq (ext : Ext) (c c3 : Context) (d : Dom)
    (logs : List String) (h : c.GetDom ext = some (d, c3, logs)) :
    c3.dom = some d := by
  unfold Context.GetDom at h
  cases hd0 : c.dom with
  | some d0 =>
      rw [hd0] at h
      simp only [Option.some.injEq, Prod.mk.injEq] at h
      obtain ⟨h1, h2, h3⟩ := h
      rw [← h2, hd0, h1]
  | none =>
      rw [hd0] at h
      cases ht : c.GetText ext with
      | none => rw [ht] at h; exact absurd h (by simp)
      | some p =>
          obtain ⟨t, cc, lg⟩ := p
          rw [ht] at h
          simp only [Option.some.injEq, Prod.mk.injEq] at h
          obtain ⟨h1, h2, h3⟩ := h
          rw [← h2, h1]

/-- C7 (counterexample): the decoded-text cache is not memoization-correct
when the decoded text is empty, because the empty string doubles as the
unfilled-cache sentinel.  On a response with empty body (non-Surf fetch,
so no charset handling), the first `GetText` returns `""` after consuming
and closing the body; the second `GetText` re-runs the derivation against
the already-closed body and aborts (`none`), rather than returning the
cached string. -/
theorem text_memoization_cex :
    (Context.GetText extNone
        (mkCtx {} { DownloaderID := 1 } (some {}) "" none {} {} none) =
      some ("",
        mkCtx {} { DownloaderID := 1 } (some { BodyClosed := true })
          "" none {} {} none, [])) ∧
    (Context.GetText extNone
        (mkCtx {} { DownloaderID := 1 } (some { BodyClosed := true })
          "" none {} {} none) = none) :=
  ⟨rfl, rfl⟩

/-- C7 (amended): memoization of the lazy views, provided the decoded text
is nonempty (the empty string is the unfilled-cache sentinel: an empty
decoded text is re-derived on every call, which re-reads the closed body
and aborts — see the counterexample).  After a successful `GetText`
returning a nonempty string, every subsequent `GetText` returns the same
cached string with no state change and no body read; after a successful
`GetDom`, every subsequent `GetDom` returns the same cached document with
no reparse; `ResetText` installs the new text and invalidates the cached
document tree, so the next `GetDom` reparses exactly the replaced text. -/
theorem text_memoization_amended
    (ext : Ext) (c c2 c3 : Context) (t s : String) (d : Dom)
    (logs logs2 : List String)
    (ht : c.GetText ext = some (t, c2, logs)) (hne : t ≠ "")
    (hd : c.GetDom ext = some (d, c3, logs2)) (hs : s ≠ "") :
    (c2.GetText ext = some (t, c2, [])) ∧
    (c3.GetDom ext = some (d, c3, [])) ∧
    ((c.ResetText s).text = s) ∧
    ((c.ResetText s).dom = none) ∧
    ((c.ResetText s).GetDom ext =
      some (parseDoc s, { c with text := s, dom := some (parseDoc s) },
        [])) := by
  have h2t : c2.text = t := getText_text_eq ext c c2 t logs ht
  have h3d : c3.dom = some d := getDom_dom_eq ext c c3 d logs2 hd
  refine ⟨?_, ?_, rfl, rfl, ?_⟩
  · unfold Context.GetText
    rw [h2t, if_neg hne]
  · unfold Context.GetDom
    rw [h3d]
  · simp [Context.GetDom, Context.ResetText, Context.GetText, hs]

/-- C7 (witness): the amended theorem applied at the concrete context with
body `BODY` (decoded unchanged through `extNone`), replaced text `S`. -/
theorem text_memoization_amended_w :
    (Context.GetText extNone (mkCtx spW rqW (some respW) "" none {} {} none) =
      some ("BODY",
        mkCtx spW rqW (some { respW with BodyClosed := true }) "BODY"
          none {} {} none, [])) ∧
    ("BODY" ≠ "") ∧
    (Context.GetDom extNone (mkCtx spW rqW (some respW) "" none {} {} none) =
      some (parseDoc "BODY",
        mkCtx spW rqW (some { respW with BodyClosed := true }) "BODY"
          (some (parseDoc "BODY")) {} {} none, [])) ∧
    ("S" ≠ "") ∧
    ((Context.GetText extNone
        (mkCtx spW rqW (some { respW with BodyClosed := true }) "BODY"
          none {} {} none) =
      some ("BODY",
        mkCtx spW rqW (some { respW with BodyClosed := true }) "BODY"
          none {} {} none, [])) ∧
    (Context.GetDom extNone
        (mkCtx spW rqW (some { respW with BodyClosed := true }) "BODY"
          (some (parseDoc "BODY")) {} {} none) =
      some (parseDoc "BODY",
        mkCtx spW rqW (some { respW with BodyClosed := true }) "BODY"
          (some (parseDoc "BODY")) {} {} none, [])) ∧
    (((mkCtx spW rqW (some respW) "" none {} {} none).ResetText "S").text =
      "S") ∧
    (((mkCtx spW rqW (some respW) "" none {} {} none).ResetText "S").dom =
      none) ∧
    (((mkCtx spW rqW (some respW) "" none {} {} none).ResetText "S").GetDom
        extNone =
      some (parseDoc "S",
        { mkCtx spW rqW (some respW) "" none {} {} none with
            text := "S", dom := some (parseDoc "S") }, []))) :=
  ⟨rfl, by decide, rfl, by decide,
   text_memoization_amended extNone
     (mkCtx spW rqW (some respW) "" none {} {} none)
     (mkCtx spW rqW (some { respW with BodyClosed := true }) "BODY"
       none {} {} none)
     (mkCtx spW rqW (some { respW with BodyClosed := true }) "BODY"
       (some (parseDoc "BODY")) {} {} none)
     "BODY" "S" (parseDoc "BODY") [] [] rfl (by decide) rfl (by decide)⟩

/-- C8 (counterexample): the referer is not auto-populated when the context
has no bound response.  With a context whose request url is
`http://x.test/` but with `Response = nil`, a valid request with no referer
is pushed with its referer still empty, contrary to the claim that every
validated referer-less request gets the context's url as referer. -/
theorem addQueue_referer_cex :
    (Context.AddQueue
        (mkCtx { Name := "s" } { Url := "http://x.test/" } none "" none {} {}
          none)
        { Url := "http://q.test/" } =
      some (some { Url := "http://q.test/", Spider := "s", Method := "GET" },
        [])) ∧
    (Request.GetReferer
        { Url := "http://q.test/", Spider := "s", Method := "GET" } = "") ∧
    (("" : String) ≠ "http://x.test/") :=
  ⟨rfl, rfl, by decide⟩

/-- C8 (amended): queueing behaviour of `AddQueue` and `JsAddQueue`.  A
request failing validation is dropped with a logged diagnostic and the call
returns normally with nothing pushed; a validated request with no referer
gets the referer auto-populated from the context's url only when the
context has a bound response (with no response bound the referer is left
as-is — see the counterexample); a validated request with a referer keeps
it.  In the dynamic variant, a non-string `Url` drops the request silently
before validation (no diagnostic), and any other parameter-bag field of
mismatched dynamic shape is silently ignored, its target field keeping the
zero value (subsequently normalized, e.g. an ignored `Method` becomes the
GET default, while a well-typed `Method` is taken verbatim). -/
theorem addQueue_amended
    (sp : Spider) (rq : Request) (resp : Response) (txt : String)
    (dm : Option Dom) (it : Buf DataCell) (fl : Buf FileCell)
    (er : Option String) (reqBad reqGood reqRef r2 r3 : Request)
    (e u : String)
    (hbad : ((reqBad.SetSpiderName sp.Name).SetEnableCookie
        sp.EnableCookie).Prepare = Except.error e)
    (hok : ((reqGood.SetSpiderName sp.Name).SetEnableCookie
        sp.EnableCookie).Prepare = Except.ok r2)
    (href : r2.GetReferer = "")
    (hok3 : ((reqRef.SetSpiderName sp.Name).SetEnableCookie
        sp.EnableCookie).Prepare = Except.ok r3)
    (href3 : ¬ (r3.GetReferer = ""))
    (hu : ¬ (u = "")) :
    ((mkCtx sp rq (some resp) txt dm it fl er).AddQueue reqBad =
      some (none, [e])) ∧
    ((mkCtx sp rq (some resp) txt dm it fl er).AddQueue reqGood =
      some (some (r2.SetReferer rq.Url), [])) ∧
    ((mkCtx sp rq none txt dm it fl er).AddQueue reqGood =
      some (some r2, [])) ∧
    ((mkCtx sp rq (some resp) txt dm it fl er).AddQueue reqRef =
      some (some r3, [])) ∧
    ((mkCtx sp rq none txt dm it fl er).JsAddQueue [("Url", Val.int 0)] =
      some (none, [])) ∧
    ((mkCtx sp rq none txt dm it fl er).JsAddQueue
        [("Url", Val.str u), ("Method", Val.int 5), ("Header", Val.str "x")] =
      some (some { Url := u, Spider := sp.Name, Method := "GET",
                   EnableCookie := sp.EnableCookie }, [])) ∧
    ((mkCtx sp rq none txt dm it fl er).JsAddQueue
        [("Url", Val.str u), ("Method", Val.str "POST")] =
      some (some { Url := u, Spider := sp.Name, Method := "POST",
                   EnableCookie := sp.EnableCookie }, [])) := by
  refine ⟨?_, ?_, ?_, ?_, ?_, ?_, ?_⟩
  · simp [Context.AddQueue, mkCtx, hbad]
  · simp [Context.AddQueue, mkCtx, hok, href]
  · simp [Context.AddQueue, mkCtx, hok]
  · simp [Context.AddQueue, mkCtx, hok3, href3]
  · rfl
  · simp [Context.JsAddQueue, mkCtx, jsHeader, vStr, vInt, vBool, vMap, alookup,
      Request.SetSpiderName, Request.SetEnableCookie, Request.Prepare, hu]
  · simp [Context.JsAddQueue, mkCtx, jsHeader, vStr, vInt, vBool, vMap, alookup,
      Request.SetSpiderName, Request.SetEnableCookie, Request.Prepare, hu]

/-- C8 (witness): the amended theorem applied at the concrete spider `spW`
with an invalid request (empty url), a valid referer-less request, and a
valid request carrying a referer. -/
theorem addQueue_amended_w :
    ((((Request.SetSpiderName {} spW.Name).SetEnableCookie
        spW.EnableCookie).Prepare = Except.error "request url is empty")) ∧
    ((((Request.SetSpiderName { Url := "http://g.example/" }
        spW.Name).SetEnableCookie spW.EnableCookie).Prepare =
      Except.ok { Url := "http://g.example/", Spider := "s",
                  Method := "GET" })) ∧
    (Request.GetReferer
        { Url := "http://g.example/", Spider := "s", Method := "GET" } =
      "") ∧
    ((((Request.SetSpiderName
        { Url := "http://g.example/",
          Header := [("Referer", ["http://me.example/"])] }
        spW.Name).SetEnableCookie spW.EnableCookie).Prepare =
      Except.ok { Url := "http://g.example/", Spider := "s",
                  Method := "GET",
                  Header := [("Referer", ["http://me.example/"])] })) ∧
    (¬ (Request.GetReferer
        { Url := "http://g.example/", Spider := "s", Method := "GET",
          Header := [("Referer", ["http://me.example/"])] } = "")) ∧
    (¬ (("http://j.example/" : String) = "")) ∧
    (((mkCtx spW rqW (some respW) "" none {} {} none).AddQueue {} =
      some (none, ["request url is empty"])) ∧
    ((mkCtx spW rqW (some respW) "" none {} {} none).AddQueue
        { Url := "http://g.example/" } =
      some (some (Request.SetReferer
        { Url := "http://g.example/", Spider := "s", Method := "GET" }
        rqW.Url), [])) ∧
    ((mkCtx spW rqW none "" none {} {} none).AddQueue
        { Url := "http://g.example/" } =
      some (some { Url := "http://g.example/", Spider := "s",
                   Method := "GET" }, [])) ∧
    ((mkCtx spW rqW (some respW) "" none {} {} none).AddQueue
        { Url := "http://g.example/",
          Header := [("Referer", ["http://me.example/"])] } =
      some (some { Url := "http://g.example/", Spider := "s",
                   Method := "GET",
                   Header := [("Referer", ["http://me.example/"])] }, [])) ∧
    ((mkCtx spW rqW none "" none {} {} none).JsAddQueue
        [("Url", Val.int 0)] = some (none, [])) ∧
    ((mkCtx spW rqW none "" none {} {} none).JsAddQueue
        [("Url", Val.str "http://j.example/"), ("Method", Val.int 5),
         ("Header", Val.str "x")] =
      some (some { Url := "http://j.example/", Spider := spW.Name,
                   Method := "GET", EnableCookie := spW.EnableCookie },
        [])) ∧
    ((mkCtx spW rqW none "" none {} {} none).JsAddQueue
        [("Url", Val.str "http://j.example/"), ("Method", Val.str "POST")] =
      some (some { Url := "http://j.example/", Spider := spW.Name,
                   Method := "POST", EnableCookie := spW.EnableCookie },
        []))) :=
  ⟨rfl, rfl, rfl, rfl, by decide, by decide,
   addQueue_amended spW rqW respW "" none {} {} none {}
     { Url := "http://g.example/" }
     { Url := "http://g.example/",
       Header := [("Referer", ["http://me.example/"])] }
     { Url := "http://g.example/", Spider := "s", Method := "GET" }
     { Url := "http://g.example/", Spider := "s", Method := "GET",
       Header := [("Referer", ["http://me.example/"])] }
     "request url is empty" "http://j.example/"
     rfl rfl rfl rfl (by decide) (by decide)⟩

/-- C10: an `Output` whose item has an unsupported dynamic shape, with
successful rule resolution, is neither a failure nor a no-op: a record with
a nil field mapping is appended, carrying the resolved rule name and —
unless default fields are suppressed — the source url, referer and
timestamp. -/
theorem output_unknown_shape
    (sp : Spider) (rq : Request) (resp : Response) (txt : String)
    (dm : Option Dom) (it : Buf DataCell) (fl : Buf FileCell)
    (er : Option String) (rn now : String) (r : Rule) (v : Val)
    (hr : sp.GetRule rn = some r) :
    (mkCtx sp rq (some resp) txt dm it fl er).Output now
        (OutputItem.other v) (some rn) =
      some ({ mkCtx sp rq (some resp) txt dm it fl er with
                items := it.push (GetDataCell rn none
                  (if sp.NotDefaultField then "" else rq.Url)
                  (if sp.NotDefaultField then ""
                   else headerGet resp.ReqHeader "Referer")
                  (if sp.NotDefaultField then "" else now)) }, []) := by
  cases h : sp.NotDefaultField <;>
    simp [Context.Output, Context.getRule, mkCtx, hr, h]

/-- C10 (witness): the theorem applied at the concrete spider `spW` and an
unsupported dynamic value. -/
theorem output_unknown_shape_w :
    (spW.GetRule "r" = some { ItemFields := ["a"] }) ∧
    ((mkCtx spW rqW (some respW) "" none {} {} none).Output "T"
        (OutputItem.other (Val.any 9)) (some "r") =
      some ({ mkCtx spW rqW (some respW) "" none {} {} none with
                items := Buf.push {} (GetDataCell "r" none
                  (if spW.NotDefaultField then "" else rqW.Url)
                  (if spW.NotDefaultField then ""
                   else headerGet respW.ReqHeader "Referer")
                  (if spW.NotDefaultField then "" else "T")) }, [])) :=
  ⟨rfl,
   output_unknown_shape spW rqW respW "" none {} {} none "r" "T"
     { ItemFields := ["a"] } (Val.any 9) rfl⟩

end Pholcus
